import Mathlib

/-!
Verification development for the AlphaFX trading backend (Node variant).
The definitions below are shallow embeddings of the JavaScript source:
`TradingAlgorithms` (indicators, strategies, consensus combiner),
`TradingEngine` (risk flag, sizing, buy/sell execution, daily volume,
position updates) and `FXDataSimulator.generateHistoricalData`.
Numbers are modelled as rationals; JavaScript `Math.random()` draws are
modelled as an explicit stream of rationals.
-/

namespace AlphaFX

/-- Signal direction emitted by strategies and the consensus combiner. -/
inductive SigKind
  | buy
  | sell
  | hold
deriving DecidableEq, Repr

/-- A strategy output: direction, confidence and reason code (the extra
diagnostic fields of the source objects are not used by any claim). -/
structure StratSignal where
  signal : SigKind
  confidence : ℚ
  reason : String
deriving DecidableEq, Repr

/-- Last `n` elements of a list (JS `slice(-n)` for `n > 0`). -/
def lastN (n : ℕ) (l : List ℚ) : List ℚ := l.drop (l.length - n)

/-- `getPriceHistory(symbol, periods)`: JS treats `periods = 0` as falsy and
returns the whole history, otherwise `slice(-periods)`. -/
def sliceLast (n : ℕ) (l : List ℚ) : List ℚ := if n = 0 then l else lastN n l

/-- `calculateSMA(symbol, period)`: mean of the last `period` prices, `null`
when the history is shorter than `period`. -/
def calculateSMA (period : ℕ) (h : List ℚ) : Option ℚ :=
  let history := sliceLast period h
  if history.length < period then none
  else some (history.sum / (period : ℚ))

/-- JS falsiness of a nullable number: `null` or `0`. -/
def isFalsy : Option ℚ → Bool
  | none => true
  | some x => decide (x = 0)

/-- Mean of the last `period` prices as a plain value (used to state the
crossover conditions; agrees with `calculateSMA` when defined). -/
def smaVal (period : ℕ) (h : List ℚ) : ℚ := (lastN period h).sum / (period : ℚ)

/-- `getSMACrossoverSignal(symbol, shortPeriod, longPeriod)` from
`TradingAlgorithms`. -/
def getSMACrossoverSignal (shortPeriod longPeriod : ℕ) (h : List ℚ) : StratSignal :=
  let shortSMA := calculateSMA shortPeriod h
  let longSMA := calculateSMA longPeriod h
  if isFalsy shortSMA || isFalsy longSMA then
    ⟨.hold, 0, "insufficient_data"⟩
  else if h.length < longPeriod + 1 then
    ⟨.hold, 0, "insufficient_history"⟩
  else
    let s := shortSMA.getD 0
    let l := longSMA.getD 0
    let prevHistory := h.dropLast
    let prevShortSMA := (lastN shortPeriod prevHistory).sum / (shortPeriod : ℚ)
    let prevLongSMA := (lastN longPeriod prevHistory).sum / (longPeriod : ℚ)
    let currentCross := decide (l < s)
    let prevCross := decide (prevLongSMA < prevShortSMA)
    if currentCross && !prevCross then
      ⟨.buy, min ((s - l) / l * 100) 1, "golden_cross"⟩
    else if !currentCross && prevCross then
      ⟨.sell, min ((l - s) / s * 100) 1, "death_cross"⟩
    else
      ⟨.hold, 0, "no_crossover"⟩

/-- Pairwise differences `p_i − p_{i-1}` of consecutive points. -/
def diffs (l : List ℚ) : List ℚ := (l.zip l.tail).map (fun p => p.2 - p.1)

/-- `calculateRSI(symbol, period)` from `TradingAlgorithms`. -/
def calculateRSI (period : ℕ) (h : List ℚ) : Option ℚ :=
  let history := sliceLast (period + 1) h
  if history.length < period + 1 then none
  else
    let changes := diffs history
    let gains := changes.map (fun c => if 0 < c then c else 0)
    let losses := changes.map (fun c => if 0 < c then 0 else -c)
    let avgGain := gains.sum / (period : ℚ)
    let avgLoss := losses.sum / (period : ℚ)
    if avgLoss = 0 then some 100
    else some (100 - 100 / (1 + avgGain / avgLoss))

/-- Modelled from the spec: the reference RSI definition — over the last
`n+1` points take pairwise diffs, `gain_i = max(d_i,0)`, `loss_i = max(−d_i,0)`,
average both over `n`; `100` when the average loss is `0`, otherwise
`100 − 100/(1 + avg_gain/avg_loss)`. -/
def rsiRef (period : ℕ) (h : List ℚ) : ℚ :=
  let ds := diffs (lastN (period + 1) h)
  let avgGain := (ds.map (fun d => max d 0)).sum / (period : ℚ)
  let avgLoss := (ds.map (fun d => max (-d) 0)).sum / (period : ℚ)
  if avgLoss = 0 then 100 else 100 - 100 / (1 + avgGain / avgLoss)

/-- Consensus output of `getCombinedSignal`: direction, confidence and the
three embedded component signals (field `components` in the source). -/
structure CombinedSignal where
  signal : SigKind
  confidence : ℚ
  components : StratSignal × StratSignal × StratSignal
deriving DecidableEq, Repr

/-- The signals kept by the combiner: those with positive confidence. -/
def keptOf (s1 s2 s3 : StratSignal) : List StratSignal :=
  [s1, s2, s3].filter (fun s => decide (0 < s.confidence))

/-- Kept signals whose direction is BUY. -/
def buysOf (s1 s2 s3 : StratSignal) : List StratSignal :=
  (keptOf s1 s2 s3).filter (fun s => decide (s.signal = .buy))

/-- Kept signals whose direction is SELL. -/
def sellsOf (s1 s2 s3 : StratSignal) : List StratSignal :=
  (keptOf s1 s2 s3).filter (fun s => decide (s.signal = .sell))

/-- `getCombinedSignal` from `TradingAlgorithms`, as a function of the three
component signals. -/
def getCombinedSignal (s1 s2 s3 : StratSignal) : CombinedSignal :=
  let validSignals := keptOf s1 s2 s3
  if validSignals.isEmpty then
    ⟨.hold, 0, (s1, s2, s3)⟩
  else
    let buySignals := buysOf s1 s2 s3
    let sellSignals := sellsOf s1 s2 s3
    if sellSignals.length < buySignals.length then
      ⟨.buy, min ((buySignals.map StratSignal.confidence).sum / (buySignals.length : ℚ)) 1,
        (s1, s2, s3)⟩
    else if buySignals.length < sellSignals.length then
      ⟨.sell, min ((sellSignals.map StratSignal.confidence).sum / (sellSignals.length : ℚ)) 1,
        (s1, s2, s3)⟩
    else
      ⟨.hold, min 0 1, (s1, s2, s3)⟩

/-- Modelled from the spec: keep the signals with positive confidence, count
BUYs versus SELLs; when BUYs outnumber SELLs return BUY with the mean of the
BUY confidences capped at 1, symmetrically for SELL, otherwise HOLD with
confidence 0; embed the three component signals. -/
def consensusSpec (s1 s2 s3 : StratSignal) : CombinedSignal :=
  let buys := buysOf s1 s2 s3
  let sells := sellsOf s1 s2 s3
  if sells.length < buys.length then
    ⟨.buy, min ((buys.map StratSignal.confidence).sum / (buys.length : ℚ)) 1, (s1, s2, s3)⟩
  else if buys.length < sells.length then
    ⟨.sell, min ((sells.map StratSignal.confidence).sum / (sells.length : ℚ)) 1, (s1, s2, s3)⟩
  else
    ⟨.hold, 0, (s1, s2, s3)⟩

/-- A bid/ask quote as consumed by the trading engine (`mid` is the midpoint
field the engine reads for sizing and risk checks). -/
structure PriceData where
  bid : ℚ
  ask : ℚ
  mid : ℚ
deriving DecidableEq, Repr

/-- A row of the `positions` table: signed quantity and average price. -/
structure EnginePosition where
  quantity : ℚ
  avg_price : ℚ
deriving DecidableEq, Repr

/-- Trade side. -/
inductive Side
  | buy
  | sell
deriving DecidableEq, Repr

/-- An executed trade record (the fields the claims mention). -/
structure Trade where
  side : Side
  quantity : ℚ
  price : ℚ
  value : ℚ
deriving DecidableEq, Repr

/-- In-memory engine state: `isActive`, accumulated `currentDailyVolume` and
the (single-symbol) position row. -/
structure EngineState where
  isActive : Bool
  currentDailyVolume : ℚ
  position : Option EnginePosition
deriving DecidableEq, Repr

/-- `TradingEngine.updatePosition`: insert a new row, or update via the
closing path (keep the old average unless the quantity reaches 0) or the
adding path (signed value averaging). -/
def updatePosition (pos : Option EnginePosition) (quantity price : ℚ)
    (isClosing : Bool) : EnginePosition :=
  match pos with
  | none => ⟨quantity, price⟩
  | some cur =>
    if isClosing then
      let newQuantity := cur.quantity + quantity
      ⟨newQuantity, if newQuantity = 0 then 0 else cur.avg_price⟩
    else
      let oldValue := cur.quantity * cur.avg_price
      let newValue := quantity * price
      let newQuantity := cur.quantity + quantity
      ⟨newQuantity, if newQuantity = 0 then 0 else (oldValue + newValue) / newQuantity⟩

/-- `TradingEngine.executeBuy`: price at the ask; reject (returning `none`,
state unchanged) when the daily volume limit would be exceeded; otherwise
record the trade, update the position and add the value to the daily volume. -/
def executeBuy (maxDailyVolume : ℚ) (st : EngineState) (quantity : ℚ)
    (pr : PriceData) : Option Trade × EngineState :=
  let price := pr.ask
  let value := quantity * price
  if maxDailyVolume < st.currentDailyVolume + value then (none, st)
  else
    (some ⟨.buy, quantity, price, value⟩,
      ⟨st.isActive, st.currentDailyVolume + value,
        some (updatePosition st.position quantity price false)⟩)

/-- `TradingEngine.executeSell`: price at the bid; no daily volume check in
the source; record the trade, update the position (closing path, negated
quantity) and add the value to the daily volume. -/
def executeSell (maxDailyVolume : ℚ) (st : EngineState) (quantity : ℚ)
    (pr : PriceData) : Option Trade × EngineState :=
  let price := pr.bid
  let value := quantity * price
  (some ⟨.sell, quantity, price, value⟩,
    ⟨st.isActive, st.currentDailyVolume + value,
      some (updatePosition st.position (-quantity) price true)⟩)

/-- `TradingEngine.calculatePositionSize`: confidence-scaled size with a
$1000 minimum-notional floor at the mid price. -/
def calculatePositionSize (defaultPositionSize confidence : ℚ) (pr : PriceData) : ℚ :=
  max (defaultPositionSize * confidence) (1000 / pr.mid)

/-- `TradingEngine.passesRiskChecks`: daily volume not yet at the limit,
trade value at most 10% of the daily limit, and (when a position exists)
exposure plus trade value at most 20% of the daily limit. -/
def passesRiskChecks (maxDailyVolume defaultPositionSize : ℚ) (st : EngineState)
    (confidence : ℚ) (pr : PriceData) : Bool :=
  if maxDailyVolume ≤ st.currentDailyVolume then false
  else
    let positionSize := calculatePositionSize defaultPositionSize confidence pr
    let tradeValue := positionSize * pr.mid
    if maxDailyVolume * (1 / 10) < tradeValue then false
    else
      match st.position with
      | none => true
      | some p =>
        if maxDailyVolume * (1 / 5) < |p.quantity * p.avg_price| + tradeValue then false
        else true

/-- BUY is allowed with no position or a non-positive quantity. -/
def buyAllowed : Option EnginePosition → Bool
  | none => true
  | some p => decide (p.quantity ≤ 0)

/-- SELL is allowed with no position or a non-negative quantity. -/
def sellAllowed : Option EnginePosition → Bool
  | none => true
  | some p => decide (0 ≤ p.quantity)

/-- The control flow of `TradingEngine.evaluateSymbol` up to the choice of
execution: which side, if any, is attempted. -/
def attemptOf (riskManagement : Bool) (maxDailyVolume defaultPositionSize : ℚ)
    (signal : CombinedSignal) (pr : PriceData) (st : EngineState) : Option Side :=
  if signal.confidence < (0.6 : ℚ) then none
  else if riskManagement &&
      !(passesRiskChecks maxDailyVolume defaultPositionSize st signal.confidence pr) then none
  else if signal.signal = SigKind.buy ∧ buyAllowed st.position = true then some Side.buy
  else if signal.signal = SigKind.sell ∧ sellAllowed st.position = true then some Side.sell
  else none

/-- `TradingEngine.evaluateSymbol`: dispatch the attempted side to
`executeBuy`/`executeSell` with the computed position size. -/
def evaluateSymbol (riskManagement : Bool) (maxDailyVolume defaultPositionSize : ℚ)
    (signal : CombinedSignal) (pr : PriceData) (st : EngineState) :
    Option Trade × EngineState :=
  match attemptOf riskManagement maxDailyVolume defaultPositionSize signal pr st with
  | some Side.buy =>
    executeBuy maxDailyVolume st (calculatePositionSize defaultPositionSize signal.confidence pr) pr
  | some Side.sell =>
    executeSell maxDailyVolume st (calculatePositionSize defaultPositionSize signal.confidence pr) pr
  | none => (none, st)

/-- One pass of `TradingEngine.evaluateTradingOpportunities` for one symbol:
no-op when inactive; stop the engine (without evaluating) when the daily
volume has reached the limit; otherwise evaluate the symbol. -/
def evaluationCycle (riskManagement : Bool) (maxDailyVolume defaultPositionSize : ℚ)
    (signal : CombinedSignal) (pr : PriceData) (st : EngineState) :
    Option Trade × EngineState :=
  if st.isActive = false then (none, st)
  else if maxDailyVolume ≤ st.currentDailyVolume then
    (none, ⟨false, st.currentDailyVolume, st.position⟩)
  else evaluateSymbol riskManagement maxDailyVolume defaultPositionSize signal pr st

/-- The `riskManagement` flag of the engine constructor:
`process.env.RISK_MANAGEMENT === 'true'`. -/
def riskManagementOf (env : Option String) : Bool := decide (env = some "true")

/-- A raw execution event: side, quantity and quote, as passed to
`executeBuy`/`executeSell`. -/
structure ExecEvent where
  side : Side
  quantity : ℚ
  pr : PriceData
deriving DecidableEq, Repr

/-- Apply one execution event to the engine state. -/
def execStep (maxDailyVolume : ℚ) (st : EngineState) (e : ExecEvent) : EngineState :=
  match e.side with
  | .buy => (executeBuy maxDailyVolume st e.quantity e.pr).2
  | .sell => (executeSell maxDailyVolume st e.quantity e.pr).2

/-- Fresh engine state: active, zero daily volume, no position. -/
def initialEngineState : EngineState := ⟨true, 0, none⟩

/-- Run a sequence of execution events from the fresh state. -/
def runEvents (maxDailyVolume : ℚ) (events : List ExecEvent) : EngineState :=
  events.foldl (execStep maxDailyVolume) initialEngineState

/-- The position invariant `quantity = 0 → avg_price = 0`. -/
def posInv (st : EngineState) : Prop :=
  ∀ p : EnginePosition, st.position = some p → p.quantity = 0 → p.avg_price = 0

/-- An OHLC bar produced by `generateHistoricalData` (`open` is renamed to
`openPrice` etc. because `open` is a Lean keyword). -/
structure Bar where
  timestamp : ℤ
  openPrice : ℚ
  highPrice : ℚ
  lowPrice : ℚ
  closePrice : ℚ
  volume : ℚ
deriving DecidableEq, Repr

/-- `FXDataSimulator.getIntervalMilliseconds`. -/
def getIntervalMilliseconds (interval : String) : ℤ :=
  if interval = "1min" then 60000
  else if interval = "5min" then 300000
  else if interval = "15min" then 900000
  else if interval = "30min" then 1800000
  else if interval = "1hour" then 3600000
  else if interval = "4hour" then 14400000
  else if interval = "1day" then 86400000
  else 3600000

/-- Number of loop iterations of the bar-generation `while (current <= end)`
loop (interval assumed positive, as all table entries are). -/
def numBars (startMs endMs intervalMs : ℤ) : ℕ :=
  if endMs < startMs then 0 else ((endMs - startMs) / intervalMs).toNat + 1

/-- The body of the bar-generation loop: bar `i` consumes the four
`Math.random()` draws `rands (4i) .. rands (4i+3)` (change, high jitter,
low jitter, volume) and chains the close into the next open. -/
def genBarsAux (rands : ℕ → ℚ) (startMs intervalMs : ℤ) (volatility : ℚ) :
    ℕ → ℕ → ℚ → List Bar
  | 0, _, _ => []
  | n + 1, i, price =>
    let openPrice := price
    let change := (rands (4 * i) - 1 / 2) * 2 * volatility * price
    let closePrice := openPrice + change
    let highPrice := max openPrice closePrice + rands (4 * i + 1) * |change| * (1 / 2)
    let lowPrice := min openPrice closePrice - rands (4 * i + 2) * |change| * (1 / 2)
    let volume := rands (4 * i + 3) * 1000000 + 100000
    ⟨startMs + (i : ℤ) * intervalMs, openPrice, highPrice, lowPrice, closePrice, volume⟩ ::
      genBarsAux rands startMs intervalMs volatility n (i + 1) closePrice

/-- `FXDataSimulator.generateHistoricalData`, with the ambient
`Math.random()` draws made explicit as the stream `rands`. -/
def generateHistoricalData (rands : ℕ → ℚ) (startMs endMs : ℤ) (interval : String)
    (startPrice : ℚ) : List Bar :=
  let intervalMs := getIntervalMilliseconds interval
  genBarsAux rands startMs intervalMs (1 / 1000) (numBars startMs endMs intervalMs) 0 startPrice

/-! ### Step lemmas shared by the claim theorems -/

/-- An over-limit BUY is rejected and leaves the state untouched. -/
lemma executeBuy_reject {cap : ℚ} {st : EngineState} {qty : ℚ} {pr : PriceData}
    (h : cap < st.currentDailyVolume + qty * pr.ask) :
    executeBuy cap st qty pr = (none, st) := by
  simp [executeBuy, h]

/-- A within-limit BUY executes at the ask and adds its value to the volume. -/
lemma executeBuy_accept {cap : ℚ} {st : EngineState} {qty : ℚ} {pr : PriceData}
    (h : st.currentDailyVolume + qty * pr.ask ≤ cap) :
    executeBuy cap st qty pr =
      (some ⟨Side.buy, qty, pr.ask, qty * pr.ask⟩,
        ⟨st.isActive, st.currentDailyVolume + qty * pr.ask,
          some (updatePosition st.position qty pr.ask false)⟩) := by
  simp [executeBuy, not_lt.mpr h]

/-- A SELL always executes at the bid and adds its value to the volume. -/
lemma executeSell_eq (cap : ℚ) (st : EngineState) (qty : ℚ) (pr : PriceData) :
    executeSell cap st qty pr =
      (some ⟨Side.sell, qty, pr.bid, qty * pr.bid⟩,
        ⟨st.isActive, st.currentDailyVolume + qty * pr.bid,
          some (updatePosition st.position (-qty) pr.bid true)⟩) := rfl

/-- With risk management disabled the risk-check branch of `attemptOf`
disappears. -/
lemma attemptOf_false (cap dsize : ℚ) (sig : CombinedSignal) (pr : PriceData)
    (st : EngineState) :
    attemptOf false cap dsize sig pr st =
      if sig.confidence < (0.6 : ℚ) then none
      else if sig.signal = SigKind.buy ∧ buyAllowed st.position = true then some Side.buy
      else if sig.signal = SigKind.sell ∧ sellAllowed st.position = true then some Side.sell
      else none := by
  simp [attemptOf]

/-- `evaluateSymbol` as a match on the attempted side. -/
lemma evaluateSymbol_eq (rm : Bool) (cap dsize : ℚ) (sig : CombinedSignal)
    (pr : PriceData) (st : EngineState) :
    evaluateSymbol rm cap dsize sig pr st =
      match attemptOf rm cap dsize sig pr st with
      | some Side.buy => executeBuy cap st (calculatePositionSize dsize sig.confidence pr) pr
      | some Side.sell => executeSell cap st (calculatePositionSize dsize sig.confidence pr) pr
      | none => (none, st) := rfl

/-- An active engine below the volume limit proceeds to symbol evaluation. -/
lemma evaluationCycle_active {rm : Bool} {cap dsize : ℚ} {sig : CombinedSignal}
    {pr : PriceData} {st : EngineState} (hact : st.isActive = true)
    (hvol : st.currentDailyVolume < cap) :
    evaluationCycle rm cap dsize sig pr st = evaluateSymbol rm cap dsize sig pr st := by
  simp [evaluationCycle, hact, not_le.mpr hvol]

/-- `updatePosition` with no existing row inserts the trade as-is. -/
lemma updatePosition_none (q price : ℚ) (b : Bool) :
    updatePosition none q price b = ⟨q, price⟩ := by
  cases b <;> rfl

/-- The closing path of `updatePosition`. -/
lemma updatePosition_closing (cur : EnginePosition) (q price : ℚ) :
    updatePosition (some cur) q price true =
      ⟨cur.quantity + q, if cur.quantity + q = 0 then 0 else cur.avg_price⟩ := rfl

/-- The adding path of `updatePosition`. -/
lemma updatePosition_adding (cur : EnginePosition) (q price : ℚ) :
    updatePosition (some cur) q price false =
      ⟨cur.quantity + q,
        if cur.quantity + q = 0 then 0
        else (cur.quantity * cur.avg_price + q * price) / (cur.quantity + q)⟩ := rfl

/-- Whenever `updatePosition` produces a zero quantity it also zeroes the
average price, provided the trade quantity itself is nonzero. -/
lemma updatePosition_qzero (pos : Option EnginePosition) (q price : ℚ) (b : Bool)
    (hq : q ≠ 0) (h0 : (updatePosition pos q price b).quantity = 0) :
    (updatePosition pos q price b).avg_price = 0 := by
  rcases pos with _ | cur
  · rw [updatePosition_none] at h0 ⊢
    exact absurd h0 hq
  · cases b
    · rw [updatePosition_adding] at h0 ⊢
      dsimp only at h0 ⊢
      rw [if_pos h0]
    · rw [updatePosition_closing] at h0 ⊢
      dsimp only at h0 ⊢
      rw [if_pos h0]

/-- One execution event with nonzero quantity preserves the invariant. -/
lemma execStep_preserves (cap : ℚ) (st : EngineState) (e : ExecEvent)
    (he : e.quantity ≠ 0) (h : posInv st) : posInv (execStep cap st e) := by
  rcases e with ⟨side, qty, pr⟩
  cases side
  · have hstep : execStep cap st ⟨Side.buy, qty, pr⟩ = (executeBuy cap st qty pr).2 := rfl
    by_cases hc : cap < st.currentDailyVolume + qty * pr.ask
    · rw [hstep, executeBuy_reject hc]
      exact h
    · rw [hstep, executeBuy_accept (not_lt.mp hc)]
      intro p hp h0
      have hp' : updatePosition st.position qty pr.ask false = p := by
        simpa using hp
      subst hp'
      exact updatePosition_qzero _ _ _ _ he h0
  · have hstep : execStep cap st ⟨Side.sell, qty, pr⟩ = (executeSell cap st qty pr).2 := rfl
    rw [hstep, executeSell_eq]
    intro p hp h0
    have hp' : updatePosition st.position (-qty) pr.bid true = p := by
      simpa using hp
    subst hp'
    exact updatePosition_qzero _ _ _ _ (neg_ne_zero.mpr he) h0

/-- The invariant is preserved by any fold of execution events. -/
lemma posInv_foldl (cap : ℚ) (events : List ExecEvent) (st : EngineState)
    (hq : ∀ e ∈ events, e.quantity ≠ 0) (h : posInv st) :
    posInv (events.foldl (execStep cap) st) := by
  induction events generalizing st with
  | nil => exact h
  | cons e es ih =>
    exact ih (execStep cap st e)
      (fun x hx => hq x (List.mem_cons_of_mem _ hx))
      (execStep_preserves cap st e (hq e (List.mem_cons_self _ _)) h)

/-! ### Claim theorems -/

/-- C1: the claim says an over-cap trade is rejected and the engine
transitions to Halted, after which every same-day BUY/SELL attempt is
rejected. Evaluating the code at the failing input: with daily volume
5,000,000 of a 10,000,000 cap, a BUY of value 6,000,000 is rejected but the
state is unchanged (the engine stays active), and an immediately following
BUY of value 1,000,000 executes. -/
theorem c1_cap_breach_rejects_without_halt :
    (executeBuy 10000000 ⟨true, 5000000, none⟩ 6000000 ⟨1, 1, 1⟩).1 = none ∧
    (executeBuy 10000000 ⟨true, 5000000, none⟩ 6000000 ⟨1, 1, 1⟩).2 =
      ⟨true, 5000000, none⟩ ∧
    ((executeBuy 10000000
        ((executeBuy 10000000 ⟨true, 5000000, none⟩ 6000000 ⟨1, 1, 1⟩).2)
        1000000 ⟨1, 1, 1⟩).1).isSome = true := by
  have h1 : executeBuy 10000000 ⟨true, 5000000, none⟩ 6000000 ⟨1, 1, 1⟩ =
      (none, ⟨true, 5000000, none⟩) := executeBuy_reject (by norm_num)
  refine ⟨by simp [h1], by simp [h1], ?_⟩
  rw [h1]
  rw [executeBuy_accept (by norm_num)]
  simp

/-- C2: the claim says the executed daily notional never exceeds the cap.
Evaluating the code at the failing input: with daily volume 9,999,000 of a
10,000,000 cap, a SELL consensus signal of confidence 1 at bid 1 executes
(sell execution performs no cap check) and pushes the daily volume to
10,009,000, past the cap. -/
theorem c2_sell_breaches_daily_cap :
    ((evaluationCycle false 10000000 10000
        ⟨SigKind.sell, 1, (⟨.hold, 0, "a"⟩, ⟨.hold, 0, "b"⟩, ⟨.hold, 0, "c"⟩)⟩
        ⟨1, 1, 1⟩ ⟨true, 9999000, none⟩).1).isSome = true ∧
    10000000 <
      (evaluationCycle false 10000000 10000
        ⟨SigKind.sell, 1, (⟨.hold, 0, "a"⟩, ⟨.hold, 0, "b"⟩, ⟨.hold, 0, "c"⟩)⟩
        ⟨1, 1, 1⟩ ⟨true, 9999000, none⟩).2.currentDailyVolume := by
  rw [evaluationCycle_active rfl (by norm_num)]
  rw [evaluateSymbol_eq]
  have hA : attemptOf false 10000000 10000
      ⟨SigKind.sell, 1, (⟨.hold, 0, "a"⟩, ⟨.hold, 0, "b"⟩, ⟨.hold, 0, "c"⟩)⟩
      ⟨1, 1, 1⟩ ⟨true, 9999000, none⟩ = some Side.sell := by
    rw [attemptOf_false]
    norm_num [sellAllowed]
    intro hcontra
    exact SigKind.noConfusion hcontra
  rw [hA]
  rw [executeSell_eq]
  have hsize : calculatePositionSize 10000 1 ⟨1, 1, 1⟩ = 10000 := by
    norm_num [calculatePositionSize]
  constructor
  · simp
  · simp only [hsize]
    norm_num

/-- C3 counterexample: at the claim's own scenario (position +10,000 at
1.0800, SELL of 15,000 at 1.0900) the code's `updatePosition` keeps the old
average price 1.0800 for the residual −5,000, not the execution price
1.0900 asserted by the claim. -/
theorem c3_flip_counterexample :
    updatePosition (some ⟨10000, 1.08⟩) (-15000) 1.09 true = ⟨-5000, 1.08⟩ ∧
    (1.08 : ℚ) ≠ 1.09 := by
  constructor
  · simp only [updatePosition]
    norm_num
  · norm_num

/-- C3 amended: a SELL through the closing path that flips a long position
keeps the prior average price for the residual (and no realized PnL is
computed anywhere in `updatePosition`). -/
theorem c3_flip_keeps_old_avg (q0 a0 qty p : ℚ) (hq0 : 0 < q0) (hlt : q0 < qty) :
    updatePosition (some ⟨q0, a0⟩) (-qty) p true = ⟨q0 - qty, a0⟩ := by
  have hne : q0 + -qty ≠ 0 := by
    intro hzero
    nlinarith
  rw [updatePosition_closing]
  dsimp only
  rw [if_neg hne]
  rw [EnginePosition.mk.injEq]
  constructor
  · ring
  · rfl

/-- C3 witness: the amended flip rule evaluated at the claim's scenario. -/
theorem c3_flip_keeps_old_avg_witness :
    (0 : ℚ) < 10000 ∧ (10000 : ℚ) < 15000 ∧
    updatePosition (some ⟨10000, 1.08⟩) (-15000) 1.09 true = ⟨10000 - 15000, 1.08⟩ :=
  ⟨by norm_num, by norm_num,
    c3_flip_keeps_old_avg 10000 1.08 15000 1.09 (by norm_num) (by norm_num)⟩

/-- C4 counterexample: a reachable two-cycle run (SELL 10,000 at 2 opening a
short, then a BUY signal of confidence 0.6 sized to 6,000 at 6 partially
covering it) leaves the stored position at quantity −4,000 with average
price −4, violating the claimed invariant `avg_price ≥ 0`. -/
theorem c4_negative_avg_counterexample :
    (evaluationCycle false 10000000 10000
        ⟨SigKind.buy, 0.6, (⟨.hold, 0, "a"⟩, ⟨.hold, 0, "b"⟩, ⟨.hold, 0, "c"⟩)⟩
        ⟨6, 6, 6⟩
        ((evaluationCycle false 10000000 10000
          ⟨SigKind.sell, 1, (⟨.hold, 0, "a"⟩, ⟨.hold, 0, "b"⟩, ⟨.hold, 0, "c"⟩)⟩
          ⟨2, 2, 2⟩ initialEngineState).2)).2.position = some ⟨-4000, -4⟩ ∧
    (-4 : ℚ) < 0 := by
  have hA1 : attemptOf false 10000000 10000
      ⟨SigKind.sell, 1, (⟨.hold, 0, "a"⟩, ⟨.hold, 0, "b"⟩, ⟨.hold, 0, "c"⟩)⟩
      ⟨2, 2, 2⟩ initialEngineState = some Side.sell := by
    rw [attemptOf_false]
    norm_num [sellAllowed, initialEngineState]
    intro hcontra
    exact SigKind.noConfusion hcontra
  have hsz1 : calculatePositionSize 10000 1 ⟨2, 2, 2⟩ = 10000 := by
    norm_num [calculatePositionSize]
  have h1 : (evaluationCycle false 10000000 10000
      ⟨SigKind.sell, 1, (⟨.hold, 0, "a"⟩, ⟨.hold, 0, "b"⟩, ⟨.hold, 0, "c"⟩)⟩
      ⟨2, 2, 2⟩ initialEngineState).2 = ⟨true, 20000, some ⟨-10000, 2⟩⟩ := by
    rw [evaluationCycle_active rfl (by norm_num [initialEngineState])]
    rw [evaluateSymbol_eq, hA1]
    dsimp only
    rw [hsz1, executeSell_eq]
    dsimp only [initialEngineState]
    rw [updatePosition_none]
    rw [EngineState.mk.injEq]
    norm_num
  rw [h1]
  have hA2 : attemptOf false 10000000 10000
      ⟨SigKind.buy, 0.6, (⟨.hold, 0, "a"⟩, ⟨.hold, 0, "b"⟩, ⟨.hold, 0, "c"⟩)⟩
      ⟨6, 6, 6⟩ ⟨true, 20000, some ⟨-10000, 2⟩⟩ = some Side.buy := by
    rw [attemptOf_false]
    norm_num [buyAllowed]
  have hsz2 : calculatePositionSize 10000 0.6 ⟨6, 6, 6⟩ = 6000 := by
    norm_num [calculatePositionSize]
  rw [evaluationCycle_active rfl (by norm_num)]
  rw [evaluateSymbol_eq, hA2]
  dsimp only
  rw [hsz2]
  rw [executeBuy_accept (by norm_num)]
  dsimp only
  rw [updatePosition_adding]
  dsimp only
  norm_num

/-- C4 amended: for every reachable sequence of BUY/SELL executions with
nonzero quantities, the stored position satisfies `quantity = 0 →
avg_price = 0` (the converse and `avg_price ≥ 0` fail, as witnessed by the
counterexample). -/
theorem c4_qzero_implies_avg_zero (cap : ℚ) (events : List ExecEvent)
    (hq : ∀ e ∈ events, e.quantity ≠ 0) :
    ∀ p : EnginePosition, (runEvents cap events).position = some p →
      p.quantity = 0 → p.avg_price = 0 := by
  have hinit : posInv initialEngineState := by
    intro p hp
    simp [initialEngineState] at hp
  exact posInv_foldl cap events initialEngineState hq hinit

/-- C4 witness: a SELL of 5,000 then a BUY of 5,000 nets the position to
zero quantity, and the amended invariant yields average price 0. -/
theorem c4_qzero_implies_avg_zero_witness :
    (runEvents 10000000 [⟨Side.sell, 5000, ⟨1, 1, 1⟩⟩, ⟨Side.buy, 5000, ⟨2, 2, 2⟩⟩]).position =
      some ⟨0, 0⟩ ∧ (⟨0, 0⟩ : EnginePosition).avg_price = 0 := by
  have hstep1 : execStep 10000000 initialEngineState ⟨Side.sell, 5000, ⟨1, 1, 1⟩⟩ =
      ⟨true, 5000, some ⟨-5000, 1⟩⟩ := by
    have hs : execStep 10000000 initialEngineState ⟨Side.sell, 5000, ⟨1, 1, 1⟩⟩ =
        (executeSell 10000000 initialEngineState 5000 ⟨1, 1, 1⟩).2 := rfl
    rw [hs, executeSell_eq]
    dsimp only [initialEngineState]
    rw [updatePosition_none]
    rw [EngineState.mk.injEq]
    norm_num
  have hstep2 : execStep 10000000 ⟨true, 5000, some ⟨-5000, 1⟩⟩ ⟨Side.buy, 5000, ⟨2, 2, 2⟩⟩ =
      ⟨true, 15000, some ⟨0, 0⟩⟩ := by
    have hb : execStep 10000000 ⟨true, 5000, some ⟨-5000, 1⟩⟩ ⟨Side.buy, 5000, ⟨2, 2, 2⟩⟩ =
        (executeBuy 10000000 ⟨true, 5000, some ⟨-5000, 1⟩⟩ 5000 ⟨2, 2, 2⟩).2 := rfl
    rw [hb, executeBuy_accept (by norm_num)]
    dsimp only
    rw [updatePosition_adding]
    dsimp only
    rw [EngineState.mk.injEq]
    norm_num
  have hpos : (runEvents 10000000
      [⟨Side.sell, 5000, ⟨1, 1, 1⟩⟩, ⟨Side.buy, 5000, ⟨2, 2, 2⟩⟩]).position = some ⟨0, 0⟩ := by
    have hr : runEvents 10000000 [⟨Side.sell, 5000, ⟨1, 1, 1⟩⟩, ⟨Side.buy, 5000, ⟨2, 2, 2⟩⟩] =
        execStep 10000000 (execStep 10000000 initialEngineState ⟨Side.sell, 5000, ⟨1, 1, 1⟩⟩)
          ⟨Side.buy, 5000, ⟨2, 2, 2⟩⟩ := rfl
    rw [hr, hstep1, hstep2]
  refine ⟨hpos, ?_⟩
  refine c4_qzero_implies_avg_zero 10000000
    [⟨Side.sell, 5000, ⟨1, 1, 1⟩⟩, ⟨Side.buy, 5000, ⟨2, 2, 2⟩⟩] ?_ ⟨0, 0⟩ hpos rfl
  intro e he
  rcases List.mem_cons.mp he with rfl | he2
  · norm_num
  rcases List.mem_cons.mp he2 with rfl | he3
  · norm_num
  · exact absurd he3 (List.not_mem_nil e)

/-- A one-bar window: start equal to end gives a single loop iteration. -/
lemma numBars_zero_zero : numBars 0 0 3600000 = 1 := by
  norm_num [numBars]

/-- The interval table at the default `1hour` key. -/
lemma getIntervalMilliseconds_1hour : getIntervalMilliseconds "1hour" = 3600000 := by
  rfl

/-- C5: backtest bar generation is not a function of the backtest inputs
alone — with identical `(start, end, interval, start price)` two different
ambient `Math.random()` streams (here the constant streams 0 and 1) already
produce different bars, so repeated runs need not coincide. -/
theorem c5_bars_depend_on_rng :
    generateHistoricalData (fun _ => 0) 0 0 "1hour" 1 ≠
      generateHistoricalData (fun _ => 1) 0 0 "1hour" 1 := by
  intro hcontra
  have e1 : generateHistoricalData (fun _ => (0 : ℚ)) 0 0 "1hour" 1 =
      genBarsAux (fun _ => 0) 0 3600000 (1 / 1000) 1 0 1 := by
    rw [generateHistoricalData]
    rw [getIntervalMilliseconds_1hour, numBars_zero_zero]
  have e2 : generateHistoricalData (fun _ => (1 : ℚ)) 0 0 "1hour" 1 =
      genBarsAux (fun _ => 1) 0 3600000 (1 / 1000) 1 0 1 := by
    rw [generateHistoricalData]
    rw [getIntervalMilliseconds_1hour, numBars_zero_zero]
  rw [e1, e2] at hcontra
  simp only [genBarsAux] at hcontra
  rw [List.cons.injEq, Bar.mk.injEq] at hcontra
  have hclose := hcontra.1.2.2.2.2.1
  norm_num at hclose

/-- C6: the risk checks run exactly when `RISK_MANAGEMENT` is the string
`true` (unset gives `false`); with the checks skipped (the default), a
configuration with `DEFAULT_POSITION_SIZE = 2,000,000` executes a BUY of
notional 2,000,000, which exceeds 10% of the 10,000,000 daily cap — while
the same input with the flag enabled is blocked. -/
theorem c6_risk_flag_semantics :
    riskManagementOf none = false ∧
    (∀ s : String, riskManagementOf (some s) = true ↔ s = "true") ∧
    (evaluateSymbol false 10000000 2000000
        ⟨SigKind.buy, 1, (⟨.hold, 0, "a"⟩, ⟨.hold, 0, "b"⟩, ⟨.hold, 0, "c"⟩)⟩
        ⟨1, 1, 1⟩ initialEngineState).1 = some ⟨Side.buy, 2000000, 1, 2000000⟩ ∧
    (10000000 : ℚ) * (1 / 10) < 2000000 ∧
    (evaluateSymbol true 10000000 2000000
        ⟨SigKind.buy, 1, (⟨.hold, 0, "a"⟩, ⟨.hold, 0, "b"⟩, ⟨.hold, 0, "c"⟩)⟩
        ⟨1, 1, 1⟩ initialEngineState).1 = none := by
  refine ⟨rfl, ?_, ?_, by norm_num, ?_⟩
  · intro s
    simp [riskManagementOf]
  · have hA : attemptOf false 10000000 2000000
        ⟨SigKind.buy, 1, (⟨.hold, 0, "a"⟩, ⟨.hold, 0, "b"⟩, ⟨.hold, 0, "c"⟩)⟩
        ⟨1, 1, 1⟩ initialEngineState = some Side.buy := by
      rw [attemptOf_false]
      norm_num [buyAllowed, initialEngineState]
    have hsz : calculatePositionSize 2000000 1 ⟨1, 1, 1⟩ = 2000000 := by
      norm_num [calculatePositionSize]
    rw [evaluateSymbol_eq, hA]
    dsimp only
    rw [hsz, executeBuy_accept (by norm_num [initialEngineState])]
    dsimp only
    rw [Option.some.injEq, Trade.mk.injEq]
    norm_num
  · have hrisk : passesRiskChecks 10000000 2000000 initialEngineState 1 ⟨1, 1, 1⟩ = false := by
      norm_num [passesRiskChecks, calculatePositionSize, initialEngineState]
    have hA : attemptOf true 10000000 2000000
        ⟨SigKind.buy, 1, (⟨.hold, 0, "a"⟩, ⟨.hold, 0, "b"⟩, ⟨.hold, 0, "c"⟩)⟩
        ⟨1, 1, 1⟩ initialEngineState = none := by
      rw [attemptOf]
      rw [if_neg (by norm_num)]
      rw [hrisk]
      norm_num
    rw [evaluateSymbol_eq, hA]

/-- C6 witness: the flag equivalence applied at the concrete value `yes`. -/
theorem c6_risk_flag_semantics_witness : riskManagementOf (some "yes") = false := by
  have h := c6_risk_flag_semantics.2.1 "yes"
  cases hb : riskManagementOf (some "yes")
  · rfl
  · exact absurd (h.mp hb) (by decide)

/-- C9 counterexample: with risk management enabled (`RISK_MANAGEMENT` set
to `true`) and `DEFAULT_POSITION_SIZE = 3,000,000`, a BUY consensus of
confidence 1 against an empty position satisfies every condition of the
claim (non-HOLD, confidence ≥ 0.6, direction compatible), yet no trade is
attempted: the risk gate runs before the direction branch and vetoes it. -/
theorem c9_risk_gate_blocks_counterexample :
    (⟨SigKind.buy, 1, (⟨.hold, 0, "a"⟩, ⟨.hold, 0, "b"⟩, ⟨.hold, 0, "c"⟩)⟩ :
        CombinedSignal).signal ≠ SigKind.hold ∧
    (0.6 : ℚ) ≤ (⟨SigKind.buy, 1, (⟨.hold, 0, "a"⟩, ⟨.hold, 0, "b"⟩, ⟨.hold, 0, "c"⟩)⟩ :
        CombinedSignal).confidence ∧
    buyAllowed initialEngineState.position = true ∧
    attemptOf true 10000000 3000000
      ⟨SigKind.buy, 1, (⟨.hold, 0, "a"⟩, ⟨.hold, 0, "b"⟩, ⟨.hold, 0, "c"⟩)⟩
      ⟨1, 1, 1⟩ initialEngineState = none ∧
    (evaluateSymbol true 10000000 3000000
      ⟨SigKind.buy, 1, (⟨.hold, 0, "a"⟩, ⟨.hold, 0, "b"⟩, ⟨.hold, 0, "c"⟩)⟩
      ⟨1, 1, 1⟩ initialEngineState).1 = none := by
  have hrisk : passesRiskChecks 10000000 3000000 initialEngineState 1 ⟨1, 1, 1⟩ = false := by
    norm_num [passesRiskChecks, calculatePositionSize, initialEngineState]
  have hA : attemptOf true 10000000 3000000
      ⟨SigKind.buy, 1, (⟨.hold, 0, "a"⟩, ⟨.hold, 0, "b"⟩, ⟨.hold, 0, "c"⟩)⟩
      ⟨1, 1, 1⟩ initialEngineState = none := by
    rw [attemptOf]
    rw [if_neg (by norm_num)]
    rw [hrisk]
    norm_num
  refine ⟨by decide, by norm_num, by decide, hA, ?_⟩
  rw [evaluateSymbol_eq, hA]

/-- C9 amended: with risk management disabled (the default configuration),
a BUY (resp. SELL) is attempted exactly when the consensus signal is BUY
(resp. SELL), its confidence is at least 0.6, and the direction is
compatible with the existing position (BUY when quantity is at most 0,
SELL when at least 0); every executed BUY is priced at the ask, every
executed SELL at the bid, and the executed value is added to the daily
volume. With risk management enabled the attempt additionally requires the
risk checks to pass (see the counterexample). -/
theorem c9_default_attempt_characterization (cap dsize : ℚ) (sig : CombinedSignal) (pr : PriceData) (st : EngineState) :
    (attemptOf false cap dsize sig pr st = some Side.buy ↔
      sig.signal = SigKind.buy ∧ (0.6 : ℚ) ≤ sig.confidence ∧ buyAllowed st.position = true) ∧
    (attemptOf false cap dsize sig pr st = some Side.sell ↔
      sig.signal = SigKind.sell ∧ (0.6 : ℚ) ≤ sig.confidence ∧ sellAllowed st.position = true) ∧
    (∀ t : Trade, (evaluateSymbol false cap dsize sig pr st).1 = some t →
      (t.side = Side.buy → t.price = pr.ask) ∧
      (t.side = Side.sell → t.price = pr.bid) ∧
      (evaluateSymbol false cap dsize sig pr st).2.currentDailyVolume =
        st.currentDailyVolume + t.value) := by
  have hAT := attemptOf_false cap dsize sig pr st
  by_cases hc : sig.confidence < (0.6 : ℚ)
  · rw [if_pos hc] at hAT
    refine ⟨?_, ?_, ?_⟩
    · constructor
      · intro hx
        rw [hAT] at hx
        exact absurd hx (by simp)
      · rintro ⟨-, hge, -⟩
        exact absurd hc (not_lt.mpr hge)
    · constructor
      · intro hx
        rw [hAT] at hx
        exact absurd hx (by simp)
      · rintro ⟨-, hge, -⟩
        exact absurd hc (not_lt.mpr hge)
    · intro t ht
      rw [evaluateSymbol_eq, hAT] at ht
      exact absurd ht (by simp)
  · rw [if_neg hc] at hAT
    have hc' : (0.6 : ℚ) ≤ sig.confidence := not_lt.mp hc
    by_cases hb : sig.signal = SigKind.buy ∧ buyAllowed st.position = true
    · rw [if_pos hb] at hAT
      refine ⟨?_, ?_, ?_⟩
      · simp [hAT, hb.1, hb.2, hc']
      · constructor
        · intro hx
          rw [hAT] at hx
          exact absurd hx (by simp)
        · rintro ⟨hsg, -, -⟩
          rw [hb.1] at hsg
          exact SigKind.noConfusion hsg
      · intro t ht
        rw [evaluateSymbol_eq, hAT] at ht
        dsimp only at ht
        by_cases hvol : cap <
            st.currentDailyVolume + calculatePositionSize dsize sig.confidence pr * pr.ask
        · rw [executeBuy_reject hvol] at ht
          exact absurd ht (by simp)
        · rw [executeBuy_accept (not_lt.mp hvol)] at ht
          dsimp only at ht
          rw [Option.some.injEq] at ht
          subst ht
          refine ⟨fun _ => rfl, ?_, ?_⟩
          · intro hside
            exact absurd hside (by simp)
          · rw [evaluateSymbol_eq, hAT]
            dsimp only
            rw [executeBuy_accept (not_lt.mp hvol)]
    · by_cases hs : sig.signal = SigKind.sell ∧ sellAllowed st.position = true
      · rw [if_neg hb, if_pos hs] at hAT
        refine ⟨?_, ?_, ?_⟩
        · constructor
          · intro hx
            rw [hAT] at hx
            exact absurd hx (by simp)
          · rintro ⟨hsg, -, -⟩
            rw [hs.1] at hsg
            exact SigKind.noConfusion hsg
        · simp [hAT, hs.1, hs.2, hc']
        · intro t ht
          rw [evaluateSymbol_eq, hAT] at ht
          dsimp only at ht
          rw [executeSell_eq] at ht
          dsimp only at ht
          rw [Option.some.injEq] at ht
          subst ht
          refine ⟨?_, fun _ => rfl, ?_⟩
          · intro hside
            exact absurd hside (by simp)
          · rw [evaluateSymbol_eq, hAT]
            dsimp only
            rw [executeSell_eq]
      · rw [if_neg hb, if_neg hs] at hAT
        refine ⟨?_, ?_, ?_⟩
        · constructor
          · intro hx
            rw [hAT] at hx
            exact absurd hx (by simp)
          · rintro ⟨h1, -, h3⟩
            exact absurd (And.intro h1 h3) hb
        · constructor
          · intro hx
            rw [hAT] at hx
            exact absurd hx (by simp)
          · rintro ⟨h1, -, h3⟩
            exact absurd (And.intro h1 h3) hs
        · intro t ht
          rw [evaluateSymbol_eq, hAT] at ht
          exact absurd ht (by simp)

/-- C9 witness: the characterization applied at a concrete accepted BUY. -/
theorem c9_default_attempt_witness :
    attemptOf false 10000000 10000
      ⟨SigKind.buy, 1, (⟨.hold, 0, "a"⟩, ⟨.hold, 0, "b"⟩, ⟨.hold, 0, "c"⟩)⟩
      ⟨1, 1, 1⟩ initialEngineState = some Side.buy ∧
    (evaluateSymbol false 10000000 10000
        ⟨SigKind.buy, 1, (⟨.hold, 0, "a"⟩, ⟨.hold, 0, "b"⟩, ⟨.hold, 0, "c"⟩)⟩
        ⟨1, 1, 1⟩ initialEngineState).2.currentDailyVolume =
      initialEngineState.currentDailyVolume + 10000 := by
  have h := c9_default_attempt_characterization 10000000 10000
    ⟨SigKind.buy, 1, (⟨.hold, 0, "a"⟩, ⟨.hold, 0, "b"⟩, ⟨.hold, 0, "c"⟩)⟩
    ⟨1, 1, 1⟩ initialEngineState
  have hA : attemptOf false 10000000 10000
      ⟨SigKind.buy, 1, (⟨.hold, 0, "a"⟩, ⟨.hold, 0, "b"⟩, ⟨.hold, 0, "c"⟩)⟩
      ⟨1, 1, 1⟩ initialEngineState = some Side.buy :=
    h.1.mpr ⟨rfl, by norm_num, by decide⟩
  have hsz : calculatePositionSize 10000 1 ⟨1, 1, 1⟩ = 10000 := by
    norm_num [calculatePositionSize]
  have ht : (evaluateSymbol false 10000000 10000
      ⟨SigKind.buy, 1, (⟨.hold, 0, "a"⟩, ⟨.hold, 0, "b"⟩, ⟨.hold, 0, "c"⟩)⟩
      ⟨1, 1, 1⟩ initialEngineState).1 = some ⟨Side.buy, 10000, 1, 10000⟩ := by
    rw [evaluateSymbol_eq, hA]
    dsimp only
    rw [hsz, executeBuy_accept (by norm_num [initialEngineState])]
    dsimp only
    rw [Option.some.injEq, Trade.mk.injEq]
    norm_num
  have hvol := (h.2.2 ⟨Side.buy, 10000, 1, 10000⟩ ht).2.2
  exact ⟨hA, by simpa using hvol⟩

/-- Length of the last-`n` slice. -/
lemma length_lastN (n : ℕ) (l : List ℚ) : (lastN n l).length = min n l.length := by
  simp [lastN]
  omega

/-- For a nonzero count the JS slice is the plain last-`n` slice. -/
lemma sliceLast_of_ne {n : ℕ} (hn : n ≠ 0) (l : List ℚ) : sliceLast n l = lastN n l := by
  rw [sliceLast, if_neg hn]

/-- The positive part written with a conditional equals `max`. -/
lemma ite_pos_eq_max (c : ℚ) : (if 0 < c then c else 0) = max c 0 := by
  rcases le_or_lt c 0 with hle | hlt
  · rw [if_neg (not_lt.mpr hle), max_eq_right hle]
  · rw [if_pos hlt, max_eq_left hlt.le]

/-- The negative part written with a conditional equals `max`. -/
lemma ite_neg_eq_max (c : ℚ) : (if 0 < c then 0 else -c) = max (-c) 0 := by
  rcases le_or_lt c 0 with hle | hlt
  · rw [if_neg (not_lt.mpr hle), max_eq_left (neg_nonneg.mpr hle)]
  · rw [if_pos hlt, max_eq_right (neg_nonpos.mpr hlt.le)]

/-- C10: with at least `n+1` points, `calculateRSI` equals the reference
definition (diffs over the last `n+1` points, positive and negative parts
averaged over `n`, `100` when the average loss is zero, otherwise
`100 − 100/(1 + avg_gain/avg_loss)`); with fewer points it returns no
value. -/
theorem c10_rsi_matches_reference (period : ℕ) (h : List ℚ) :
    (period + 1 ≤ h.length → calculateRSI period h = some (rsiRef period h)) ∧
    (h.length < period + 1 → calculateRSI period h = none) := by
  have hslice : sliceLast (period + 1) h = lastN (period + 1) h :=
    sliceLast_of_ne (Nat.succ_ne_zero period) h
  constructor
  · intro hlen
    have hlen2 : (lastN (period + 1) h).length = period + 1 := by
      rw [length_lastN]
      omega
    simp only [calculateRSI, rsiRef]
    rw [hslice, hlen2]
    rw [if_neg (lt_irrefl (period + 1))]
    simp only [ite_pos_eq_max, ite_neg_eq_max]
    split_ifs <;> rfl
  · intro hlen
    simp only [calculateRSI]
    rw [hslice]
    rw [if_pos (by rw [length_lastN]; omega)]

/-- C10 witness: the equality at `n = 1` on the series `[1, 2]`, where the
reference value is 100. -/
theorem c10_rsi_matches_reference_witness :
    1 + 1 ≤ ([1, 2] : List ℚ).length ∧ calculateRSI 1 [1, 2] = some 100 := by
  refine ⟨by norm_num, ?_⟩
  have h := (c10_rsi_matches_reference 1 [1, 2]).1 (by norm_num)
  rw [h]
  rw [Option.some.injEq]
  norm_num [rsiRef, diffs, lastN]

/-- C8: the consensus combiner is a pure function of the three component
signals and coincides with the spec rule — keep positive-confidence
signals, count BUYs versus SELLs, majority side wins with the mean of its
confidences capped at 1, ties and the no-positive-confidence case give HOLD
with confidence 0, and the three component signals are embedded in the
output. -/
theorem c8_consensus_matches_spec (s1 s2 s3 : StratSignal) :
    getCombinedSignal s1 s2 s3 = consensusSpec s1 s2 s3 := by
  simp only [getCombinedSignal, consensusSpec]
  cases hE : (keptOf s1 s2 s3).isEmpty
  · rw [if_neg (by simp)]
    split_ifs <;> norm_num
  · have hk : keptOf s1 s2 s3 = [] := by
      simpa using hE
    have hb : buysOf s1 s2 s3 = [] := by
      rw [buysOf, hk]
      rfl
    have hs : sellsOf s1 s2 s3 = [] := by
      rw [sellsOf, hk]
      rfl
    rw [if_pos rfl, hb, hs]
    norm_num

/-- The raw mean expression folded back into `smaVal`. -/
lemma smaVal_def (n : ℕ) (l : List ℚ) : (lastN n l).sum / (n : ℚ) = smaVal n l := rfl

/-- With enough history the SMA is defined and equals `smaVal`. -/
lemma calculateSMA_of_le (n : ℕ) (l : List ℚ) (hn : n ≠ 0) (hl : n ≤ l.length) :
    calculateSMA n l = some (smaVal n l) := by
  simp only [calculateSMA]
  rw [sliceLast_of_ne hn]
  rw [if_neg (by rw [length_lastN]; omega)]
  rfl

/-- With short history the SMA is `null`. -/
lemma calculateSMA_none_of_lt (n : ℕ) (l : List ℚ) (hn : n ≠ 0) (hl : l.length < n) :
    calculateSMA n l = none := by
  simp only [calculateSMA]
  rw [sliceLast_of_ne hn]
  rw [if_pos (by rw [length_lastN]; omega)]

/-- The mean of positive prices is positive. -/
lemma smaVal_pos (n : ℕ) (l : List ℚ) (hn : n ≠ 0) (hl : n ≤ l.length)
    (hpos : ∀ x ∈ l, 0 < x) : 0 < smaVal n l := by
  have hlen : (lastN n l).length = n := by
    rw [length_lastN]
    omega
  have hne : lastN n l ≠ [] := by
    intro hnil
    rw [hnil] at hlen
    simp at hlen
    omega
  apply div_pos
  · apply List.sum_pos
    · intro x hx
      exact hpos x (List.drop_subset _ _ hx)
    · exact hne
  · exact_mod_cast Nat.pos_of_ne_zero hn

/-- C7 counterexample: at the default periods (10, 50) a one-point history
has fewer than `long + 1` points, yet the strategy returns reason
`insufficient_data` (the null-SMA branch), not the claimed
`insufficient_history`. -/
theorem c7_insufficient_data_counterexample :
    ([1] : List ℚ).length < 50 + 1 ∧
    getSMACrossoverSignal 10 50 [1] = ⟨SigKind.hold, 0, "insufficient_data"⟩ ∧
    "insufficient_data" ≠ "insufficient_history" := by
  refine ⟨by norm_num, ?_, by decide⟩
  have h10 : calculateSMA 10 [1] = none := by
    simp [calculateSMA, sliceLast, lastN]
  simp [getSMACrossoverSignal, h10, isFalsy]

/-- C7 amended: for positive price histories, the strategy returns BUY with
confidence `min 1 ((S−L)/L·100)` and reason `golden_cross` exactly when
`S_prev ≤ L_prev` and `S > L`; SELL with the symmetric confidence and
reason `death_cross` exactly when `S_prev > L_prev` and `S ≤ L` (the
strictness on the two sides is the reverse of the claim's); HOLD with
reason `insufficient_history` exactly when the history has exactly `long`
points, and with reason `insufficient_data` when it has fewer. -/
theorem c7_crossover_characterization (shortPeriod longPeriod : ℕ) (h : List ℚ)
    (hs : shortPeriod ≠ 0) (hsl : shortPeriod ≤ longPeriod)
    (hpos : ∀ x ∈ h, 0 < x) :
    (h.length < longPeriod →
      getSMACrossoverSignal shortPeriod longPeriod h =
        ⟨SigKind.hold, 0, "insufficient_data"⟩) ∧
    (h.length = longPeriod →
      getSMACrossoverSignal shortPeriod longPeriod h =
        ⟨SigKind.hold, 0, "insufficient_history"⟩) ∧
    (longPeriod + 1 ≤ h.length →
      getSMACrossoverSignal shortPeriod longPeriod h =
        if smaVal longPeriod h < smaVal shortPeriod h ∧
            smaVal shortPeriod h.dropLast ≤ smaVal longPeriod h.dropLast then
          ⟨SigKind.buy,
            min ((smaVal shortPeriod h - smaVal longPeriod h) / smaVal longPeriod h * 100) 1,
            "golden_cross"⟩
        else if smaVal shortPeriod h ≤ smaVal longPeriod h ∧
            smaVal longPeriod h.dropLast < smaVal shortPeriod h.dropLast then
          ⟨SigKind.sell,
            min ((smaVal longPeriod h - smaVal shortPeriod h) / smaVal shortPeriod h * 100) 1,
            "death_cross"⟩
        else ⟨SigKind.hold, 0, "no_crossover"⟩) := by
  have hl0 : longPeriod ≠ 0 := by omega
  refine ⟨?_, ?_, ?_⟩
  · intro hlen
    have hlong := calculateSMA_none_of_lt longPeriod h hl0 hlen
    simp only [getSMACrossoverSignal, hlong]
    simp [isFalsy]
  · intro hlen
    have hshortSMA := calculateSMA_of_le shortPeriod h hs (by omega)
    have hlongSMA := calculateSMA_of_le longPeriod h hl0 (by omega)
    have hsp := smaVal_pos shortPeriod h hs (by omega) hpos
    have hlp := smaVal_pos longPeriod h hl0 (by omega) hpos
    simp only [getSMACrossoverSignal, hshortSMA, hlongSMA]
    rw [if_neg (by simp [isFalsy, hsp.ne', hlp.ne'])]
    rw [if_pos (by omega)]
  · intro hlen
    have hshortSMA := calculateSMA_of_le shortPeriod h hs (by omega)
    have hlongSMA := calculateSMA_of_le longPeriod h hl0 (by omega)
    have hsp := smaVal_pos shortPeriod h hs (by omega) hpos
    have hlp := smaVal_pos longPeriod h hl0 (by omega) hpos
    simp only [getSMACrossoverSignal, hshortSMA, hlongSMA, Option.getD_some, smaVal_def]
    rw [if_neg (by simp [isFalsy, hsp.ne', hlp.ne'])]
    rw [if_neg (by omega)]
    by_cases h1 : smaVal longPeriod h < smaVal shortPeriod h
    · by_cases h2 : smaVal longPeriod h.dropLast < smaVal shortPeriod h.dropLast
      · have h1' : ¬ smaVal shortPeriod h ≤ smaVal longPeriod h := not_le.mpr h1
        have h2' : ¬ smaVal shortPeriod h.dropLast ≤ smaVal longPeriod h.dropLast :=
          not_le.mpr h2
        simp [h1, h2, h1', h2']
      · have h2' : smaVal shortPeriod h.dropLast ≤ smaVal longPeriod h.dropLast :=
          not_lt.mp h2
        simp [h1, h2, h2']
    · by_cases h2 : smaVal longPeriod h.dropLast < smaVal shortPeriod h.dropLast
      · have h1' : smaVal shortPeriod h ≤ smaVal longPeriod h := not_lt.mp h1
        simp [h1, h2, h1']
      · have h2' : smaVal shortPeriod h.dropLast ≤ smaVal longPeriod h.dropLast :=
          not_lt.mp h2
        simp [h1, h2, h2']

/-- C7 witness: the characterization applied to the golden cross on the
history `[1, 1, 2]` with periods (1, 2). -/
theorem c7_crossover_characterization_witness :
    (∀ x ∈ ([1, 1, 2] : List ℚ), 0 < x) ∧
    getSMACrossoverSignal 1 2 [1, 1, 2] = ⟨SigKind.buy, 1, "golden_cross"⟩ := by
  have hpos : ∀ x ∈ ([1, 1, 2] : List ℚ), 0 < x := by
    intro x hx
    simp only [List.mem_cons, List.not_mem_nil, or_false] at hx
    rcases hx with rfl | rfl | rfl <;> norm_num
  have hchar := (c7_crossover_characterization 1 2 [1, 1, 2] (by norm_num) (by norm_num) hpos).2.2 (by norm_num)
  refine ⟨hpos, ?_⟩
  rw [hchar]
  norm_num [smaVal, lastN]

end AlphaFX
